import Mathlib

/-!
Verification development for the octorus AI-rally core: a shallow embedding of
`src/ai/orchestrator.rs` (`Orchestrator::run`, `send_event`, the timeout
wrappers), `src/ai/poster.rs` (`post_review_to_github`) and
`src/ai/pending_review.rs` (`read_pending_review`), together with theorems
settling the specification claims about them.

The orchestrator run is embedded as a pure, fuel-indexed loop that returns the
ordered trace of its externally observable steps (events sent to the sink,
session snapshots written, history entries appended, agent invocations) plus
the `Result` value, with the two agent capabilities abstracted as per-iteration
behaviour functions.
-/

/-- Modelled from the spec: severity of an inline review comment (§3
`ReviewerOutput`); `adapter.rs` is not among the sources. -/
inductive Severity where
  | critical
  | major
  | minor
  | suggestion
  deriving DecidableEq

/-- Modelled from the spec: reviewer verdict action (§3 `ReviewerOutput`). -/
inductive ReviewAction where
  | approve
  | requestChanges
  | comment
  deriving DecidableEq

/-- Modelled from the spec: one inline review comment (file path, line number,
body text, severity). -/
structure ReviewComment where
  path : String
  line : Nat
  body : String
  severity : Severity
  deriving DecidableEq

/-- Modelled from the spec: one reviewer verdict (§3 `ReviewerOutput`). -/
structure ReviewerOutput where
  action : ReviewAction
  summary : String
  comments : List ReviewComment
  blockingIssues : List String
  deriving DecidableEq

/-- Modelled from the spec: status of a reviewee fix attempt (§3
`RevieweeOutput`). -/
inductive RevieweeStatus where
  | completed
  | needsClarification
  | needsPermission
  | error
  deriving DecidableEq

/-- Modelled from the spec: a permission request `{action, reason}`. -/
structure PermissionRequest where
  action : String
  reason : String
  deriving DecidableEq

/-- Modelled from the spec: one fix attempt (§3 `RevieweeOutput`); the payload
fields are optional exactly as in the source adapter interface used by
`orchestrator.rs` (`fix_result.question`, `fix_result.permission_request`,
`fix_result.error_details`). -/
structure RevieweeOutput where
  status : RevieweeStatus
  summary : String
  filesModified : List String
  question : Option String
  permissionRequest : Option PermissionRequest
  errorDetails : Option String
  deriving DecidableEq

/-- Modelled from the spec: the immutable per-run input (§3 `Context`). -/
structure Context where
  repo : String
  prNumber : Nat
  title : String
  description : Option String
  diff : String
  workingDir : Option String
  deriving DecidableEq

/-- `RallyState` from `orchestrator.rs`. -/
inductive RallyState where
  | initializing
  | reviewerReviewing
  | revieweeFix
  | waitingForClarification
  | waitingForPermission
  | completed
  | error
  deriving DecidableEq

/-- `RallyEvent` from `orchestrator.rs` (the streaming agent events are emitted
by the adapters, not by the orchestrator, and are omitted). -/
inductive RallyEvent where
  | stateChanged (s : RallyState)
  | iterationStarted (n : Nat)
  | reviewCompleted (r : ReviewerOutput)
  | fixCompleted (f : RevieweeOutput)
  | clarificationNeeded (question : String)
  | permissionNeeded (action reason : String)
  | approved (summary : String)
  | error (message : String)
  | log (message : String)
  deriving DecidableEq

/-- `RallyResult` from `orchestrator.rs`. -/
inductive RallyResult where
  | approved (iteration : Nat) (summary : String)
  | maxIterationsReached (iteration : Nat)
  | aborted (iteration : Nat) (reason : String)
  | error (iteration : Nat) (err : String)
  deriving DecidableEq

/-- Modelled from the spec: the persisted session record (§3 `RallySession`,
§6 session snapshot `{repo, pr_number, iteration, state}`); `session.rs` is
not among the sources. -/
structure RallySession where
  repo : String
  prNumber : Nat
  iteration : Nat
  state : RallyState
  deriving DecidableEq

/-- Modelled from the spec: a history entry records one iteration's review or
fix (§6, tagged `Review` or `Fix`). -/
inductive HistoryEntryType where
  | review (r : ReviewerOutput)
  | fix (f : RevieweeOutput)
  deriving DecidableEq

/-- Modelled from the spec: the configuration fields `Orchestrator::run` reads
(§6: maximum iteration count, per-call timeout duration); `config.rs` is not
among the sources.  Field names follow the source usage sites
(`config.max_iterations`, `config.timeout_secs`). -/
structure AiConfig where
  max_iterations : Nat
  timeout_secs : Nat
  deriving DecidableEq

/-- Outcome of one abstract agent invocation, from the orchestrator's point of
view: the adapter future resolved with `Ok`, resolved with `Err`, or the
surrounding `tokio::time::timeout` elapsed first. -/
inductive AgentResult (α : Type) where
  | ok (value : α)
  | err (message : String)
  | timeout
  deriving DecidableEq

/-- One externally observable step of `Orchestrator::run`: an event handed to
`send_event`, a `write_session` call, a `write_history_entry` call, or an
agent invocation. -/
inductive Step where
  | event (e : RallyEvent)
  | writeSession (s : RallySession)
  | writeHistory (iteration : Nat) (entry : HistoryEntryType)
  | reviewerCall (iteration : Nat)
  | revieweeCall (iteration : Nat)
  deriving DecidableEq

/-- `run_reviewer_with_timeout` (orchestrator.rs:294-332), with the prompt
construction folded into the abstract behaviour (the prompt is pure and the
adapter is an external collaborator): a timeout becomes the error
`"Reviewer timeout after {timeout_secs} seconds"`, an adapter error is
propagated as-is. -/
def runReviewerWithTimeout (cfg : AiConfig)
    (reviewer : Nat → AgentResult ReviewerOutput) (iteration : Nat) :
    Except String ReviewerOutput :=
  match reviewer iteration with
  | .ok r => .ok r
  | .err m => .error m
  | .timeout =>
      .error ("Reviewer timeout after " ++ toString cfg.timeout_secs ++ " seconds")

/-- `run_reviewee_with_timeout` (orchestrator.rs:334-355), analogously. -/
def runRevieweeWithTimeout (cfg : AiConfig)
    (reviewee : Nat → AgentResult RevieweeOutput) (iteration : Nat) :
    Except String RevieweeOutput :=
  match reviewee iteration with
  | .ok f => .ok f
  | .err m => .error m
  | .timeout =>
      .error ("Reviewee timeout after " ++ toString cfg.timeout_secs ++ " seconds")

/-- The main loop of `Orchestrator::run` (orchestrator.rs:122-263).  `iter` is
the session's current iteration; `fuel` is `max_iterations - iter`, so the
`while self.session.iteration < self.config.max_iterations` guard becomes
structural recursion on `fuel` (the loop body increments the iteration by
exactly one each pass).  The returned list is the ordered trace of observable
steps; the `Except` value is `run`'s return.  Step order matches the source
exactly: in particular `StateChanged(ReviewerReviewing)` and
`StateChanged(RevieweeFix)` are emitted before the corresponding
`write_session`, while the `Completed`, waiting and `Error` transitions are
persisted before their events. -/
def runLoop (cfg : AiConfig) (repo : String) (prNumber : Nat)
    (reviewer : Nat → AgentResult ReviewerOutput)
    (reviewee : Nat → AgentResult RevieweeOutput) :
    Nat → Nat → List Step × Except String RallyResult
  | iter, 0 =>
    ([.event (.log ("Max iterations (" ++ toString cfg.max_iterations ++ ") reached"))],
     .ok (.maxIterationsReached iter))
  | iter, fuel + 1 =>
    let n := iter + 1
    let head : List Step :=
      [.event (.iterationStarted n),
       .event (.log ("Starting iteration " ++ toString n)),
       .event (.stateChanged .reviewerReviewing),
       .writeSession ⟨repo, prNumber, n, .reviewerReviewing⟩,
       .reviewerCall n]
    match runReviewerWithTimeout cfg reviewer n with
    | .error m => (head, .error m)
    | .ok review =>
      let head2 := head ++
        [.writeHistory n (.review review), .event (.reviewCompleted review)]
      if review.action = .approve then
        (head2 ++
          [.writeSession ⟨repo, prNumber, n, .completed⟩,
           .event (.approved review.summary),
           .event (.stateChanged .completed)],
         .ok (.approved n review.summary))
      else
        let head3 := head2 ++
          [.event (.stateChanged .revieweeFix),
           .writeSession ⟨repo, prNumber, n, .revieweeFix⟩,
           .revieweeCall n]
        match runRevieweeWithTimeout cfg reviewee n with
        | .error m => (head3, .error m)
        | .ok fix =>
          let head4 := head3 ++
            [.writeHistory n (.fix fix), .event (.fixCompleted fix)]
          match fix.status with
          | .completed =>
            let rest := runLoop cfg repo prNumber reviewer reviewee n fuel
            (head4 ++ [.event (.log ("Fix completed: " ++ fix.summary))] ++ rest.1,
             rest.2)
          | .needsClarification =>
            match fix.question with
            | some q =>
              (head4 ++
                [.writeSession ⟨repo, prNumber, n, .waitingForClarification⟩,
                 .event (.clarificationNeeded q),
                 .event (.stateChanged .waitingForClarification)],
               .ok (.aborted n ("Clarification needed: " ++ q)))
            | none =>
              let rest := runLoop cfg repo prNumber reviewer reviewee n fuel
              (head4 ++ rest.1, rest.2)
          | .needsPermission =>
            match fix.permissionRequest with
            | some p =>
              (head4 ++
                [.writeSession ⟨repo, prNumber, n, .waitingForPermission⟩,
                 .event (.permissionNeeded p.action p.reason),
                 .event (.stateChanged .waitingForPermission)],
               .ok (.aborted n ("Permission needed: " ++ p.action)))
            | none =>
              let rest := runLoop cfg repo prNumber reviewer reviewee n fuel
              (head4 ++ rest.1, rest.2)
          | .error =>
            let errMsg := fix.errorDetails.getD "Unknown error"
            (head4 ++
              [.writeSession ⟨repo, prNumber, n, .error⟩,
               .event (.error errMsg),
               .event (.stateChanged .error)],
             .ok (.error n errMsg))

/-- `Orchestrator::run` (orchestrator.rs:111-264) on a freshly constructed
orchestrator (session at iteration 0, as built by `new`): the missing-context
check, the `StateChanged(Initializing)` event, then the loop. -/
def Orchestrator.run (cfg : AiConfig) (repo : String) (prNumber : Nat)
    (reviewer : Nat → AgentResult ReviewerOutput)
    (reviewee : Nat → AgentResult RevieweeOutput)
    (context : Option Context) : List Step × Except String RallyResult :=
  match context with
  | none => ([], .error "Context not set")
  | some _ =>
    let rest := runLoop cfg repo prNumber reviewer reviewee 0 cfg.max_iterations
    (.event (.stateChanged .initializing) :: rest.1, rest.2)

/-- State of the bounded TUI event channel, as seen by one `send`: the
receiver has been dropped (closed), the channel is at capacity (full), or a
permit is available. -/
inductive SinkState where
  | closed
  | full
  | available
  deriving DecidableEq

/-- What happens to the event handed to one `send`. -/
inductive SendOutcome where
  | delivered
  | dropped
  | suspendedUntilCapacity
  deriving DecidableEq

/-- Semantics of the bounded `tokio::sync::mpsc::Sender::send(..).await` used
by `Orchestrator::send_event` (orchestrator.rs:357-359): on a closed channel
the future resolves immediately with `Err` (so the event is dropped); with
capacity available the event is delivered; on a full channel the send waits
until capacity frees up (the awaiting caller is suspended, the event is not
dropped). -/
def tokioMpscSend : SinkState → SendOutcome
  | .closed => .dropped
  | .full => .suspendedUntilCapacity
  | .available => .delivered

/-- `Orchestrator::send_event` (orchestrator.rs:357-359): `let _ = ...` means
the send's result is discarded, so the call never produces an error
regardless of the sink's state; the outcome of the underlying send is
`tokioMpscSend`. -/
def send_event (s : SinkState) : SendOutcome × Except String Unit :=
  (tokioMpscSend s, .ok ())

/-- `crate::app::ReviewAction`, the hosting-platform review action. -/
inductive AppReviewAction where
  | approve
  | requestChanges
  | comment
  deriving DecidableEq

/-- The action mapping at poster.rs:40-44. -/
def toAppAction : ReviewAction → AppReviewAction
  | .approve => .approve
  | .requestChanges => .requestChanges
  | .comment => .comment

/-- `PostOptions` from poster.rs. -/
structure PostOptions where
  include_header : Bool
  post_summary : Bool
  deriving DecidableEq

/-- One externally observable step of `post_review_to_github`: a
`github::submit_review` call, a `github::create_review_comment` call, a
warning (the `warn!`/`Log` pair is collapsed into one step), or the
rate-limit sleep. -/
inductive PostStep where
  | submitReview (action : AppReviewAction) (body : String)
  | createReviewComment (path : String) (line : Nat) (body : String)
  | warn (message : String)
  | sleepMs (ms : Nat)
  deriving DecidableEq

/-- The `"[AI Rally - Reviewer]"` header prefixing at poster.rs:48-52 and
poster.rs:80-84. -/
def withHeader (opts : PostOptions) (body : String) : String :=
  if opts.include_header then "[AI Rally - Reviewer]\n\n" ++ body else body

/-- The inline-comment loop of `post_review_to_github` (poster.rs:79-110):
each comment is submitted individually in list order; a failure produces a
warning and does not stop the loop; a 100ms sleep follows every submission.
`github::create_review_comment` is abstracted as a behaviour function (repo,
PR number and head SHA are fixed ambient arguments folded into it). -/
def postComments (createComment : String → Nat → String → Except String Unit)
    (opts : PostOptions) : List ReviewComment → List PostStep
  | [] => []
  | c :: rest =>
    let body := withHeader opts c.body
    let steps : List PostStep :=
      match createComment c.path c.line body with
      | .ok _ => [.createReviewComment c.path c.line body]
      | .error e =>
        [.createReviewComment c.path c.line body,
         .warn ("Failed to post inline comment on " ++ c.path ++ ":" ++
                toString c.line ++ ": " ++ e)]
    steps ++ [.sleepMs 100] ++ postComments createComment opts rest

/-- `post_review_to_github` (poster.rs:31-113), with `github::submit_review`
and `github::create_review_comment` abstracted as behaviour functions over
(action, body) and (path, line, body).  Summary phase (poster.rs:39-77): map
the action, build the body, submit; if that fails and the action was
`Approve`, warn and retry once as `Comment` with the same body, propagating
the retry's error; any other failure is propagated immediately.  Then the
inline comments are posted (poster.rs:79-110) and the call returns `Ok(())`. -/
def post_review_to_github (submit : AppReviewAction → String → Except String Unit)
    (createComment : String → Nat → String → Except String Unit)
    (review : ReviewerOutput) (opts : PostOptions) :
    List PostStep × Except String Unit :=
  let summaryPhase : List PostStep × Except String Unit :=
    if opts.post_summary then
      let appAction := toAppAction review.action
      let body := withHeader opts review.summary
      match submit appAction body with
      | .ok _ => ([.submitReview appAction body], .ok ())
      | .error e =>
        if appAction = .approve then
          match submit .comment body with
          | .ok _ =>
            ([.submitReview appAction body,
              .warn "Approve failed, falling back to comment",
              .submitReview .comment body], .ok ())
          | .error e2 =>
            ([.submitReview appAction body,
              .warn "Approve failed, falling back to comment",
              .submitReview .comment body], .error e2)
        else
          ([.submitReview appAction body], .error e)
    else ([], .ok ())
  match summaryPhase.2 with
  | .error e => (summaryPhase.1, .error e)
  | .ok _ =>
    (summaryPhase.1 ++ postComments createComment opts review.comments, .ok ())

/-- `PendingReview` from pending_review.rs:12-21. -/
structure PendingReview where
  version : Nat
  repo : String
  pr_number : Nat
  head_sha : String
  base_branch : String
  created_at : String
  review : ReviewerOutput
  deriving DecidableEq

/-- `CURRENT_VERSION` from pending_review.rs:10. -/
def CURRENT_VERSION : Nat := 1

/-- `read_pending_review` (pending_review.rs:43-57), with the filesystem read
abstracted as its outcome (`content`) and `serde_json::from_str` abstracted
as a behaviour function (`parse`); the `anyhow` context strings are the
error messages.  A stored version other than `CURRENT_VERSION` is rejected
with the `Unsupported pending review version` error. -/
def read_pending_review (content : Except String String)
    (parse : String → Except String PendingReview) :
    Except String PendingReview :=
  match content with
  | .error _ => .error "Failed to read pending review file"
  | .ok s =>
    match parse s with
    | .error _ => .error "Failed to parse pending review file"
    | .ok review =>
      if review.version ≠ CURRENT_VERSION then
        .error ("Unsupported pending review version: " ++ toString review.version ++
                " (expected " ++ toString CURRENT_VERSION ++ ")")
      else .ok review

/-- Whether a step is a `StateChanged s` event. -/
def isStateChangedEvent (s : RallyState) : Step → Bool
  | .event (.stateChanged t) => t == s
  | _ => false

/-- Whether a step is a session write whose persisted state is `s`. -/
def isSessionWrite (s : RallyState) : Step → Bool
  | .writeSession sess => sess.state == s
  | _ => false

/-- Whether a step is a reviewer invocation. -/
def isReviewerCallStep : Step → Bool
  | .reviewerCall _ => true
  | _ => false

/-- Whether a step is a reviewee invocation. -/
def isRevieweeCallStep : Step → Bool
  | .revieweeCall _ => true
  | _ => false

/-- Scans a trace keeping a credit of `first`-steps seen so far and not yet
matched: a `first`-step adds one credit, a `second`-step consumes one credit
and fails the scan if none is available.  `ordered first second 0 tr = true`
therefore says every `second`-step in `tr` is preceded by its own earlier
`first`-step: the `first`-steps lead the `second`-steps. -/
def ordered (first second : Step → Bool) : Nat → List Step → Bool
  | _, [] => true
  | credit, step :: rest =>
    if first step then ordered first second (credit + 1) rest
    else if second step then
      match credit with
      | 0 => false
      | c + 1 => ordered first second c rest
    else ordered first second credit rest

/-- The session write carrying state `s` is persisted before the matching
`StateChanged s` event is emitted, throughout the trace. -/
def persistBeforeEmit (tr : List Step) (s : RallyState) : Prop :=
  ordered (isSessionWrite s) (isStateChangedEvent s) 0 tr = true

/-- The `StateChanged s` event is emitted before the matching session write
carrying state `s` is persisted, throughout the trace. -/
def emitBeforePersist (tr : List Step) (s : RallyState) : Prop :=
  ordered (isStateChangedEvent s) (isSessionWrite s) 0 tr = true

/-- Whether a post step is a summary submission. -/
def isSubmitStep : PostStep → Bool
  | .submitReview _ _ => true
  | _ => false

/-- Whether a post step is an inline-comment submission. -/
def isInlineStep : PostStep → Bool
  | .createReviewComment _ _ _ => true
  | _ => false

/-- A concrete run context for witnesses. -/
def sampleContext : Context := ⟨"r", 1, "t", none, "d", none⟩

/-- A concrete non-approving verdict for witnesses. -/
def reqChangesReview : ReviewerOutput := ⟨.requestChanges, "s", [], []⟩

/-- A concrete approving verdict for witnesses. -/
def approveReview : ReviewerOutput := ⟨.approve, "ok", [], []⟩

/-- A concrete completed fix for witnesses. -/
def completedFix : RevieweeOutput := ⟨.completed, "f", [], none, none, none⟩

/-- A fix declaring `NeedsClarification` without a clarification question:
the malformed payload of the contract-violation claim. -/
def clarifNoneFix : RevieweeOutput := ⟨.needsClarification, "f", [], none, none, none⟩

/-- Every agent invocation recorded in the trace of `runLoop` started from
iteration `iter` belongs to a strictly later iteration. -/
lemma runLoop_call_gt (cfg : AiConfig) (repo : String) (prNumber : Nat)
    (reviewer : Nat → AgentResult ReviewerOutput)
    (reviewee : Nat → AgentResult RevieweeOutput) :
    ∀ fuel iter k,
      (Step.reviewerCall k ∈ (runLoop cfg repo prNumber reviewer reviewee iter fuel).1 ∨
       Step.revieweeCall k ∈ (runLoop cfg repo prNumber reviewer reviewee iter fuel).1) →
      iter < k := by
  intro fuel
  induction fuel with
  | zero =>
    intro iter k h
    rcases h with h | h <;> simp [runLoop] at h
  | succ f ih =>
    intro iter k h
    cases hrev : reviewer (iter + 1) with
    | timeout =>
      simp [runLoop, runReviewerWithTimeout, hrev] at h
      rcases h with h | h <;> omega
    | err m =>
      simp [runLoop, runReviewerWithTimeout, hrev] at h
      rcases h with h | h <;> omega
    | ok r =>
      by_cases ha : r.action = ReviewAction.approve
      · simp [runLoop, runReviewerWithTimeout, hrev, ha] at h
        rcases h with h | h <;> omega
      · cases hfix : reviewee (iter + 1) with
        | timeout =>
          simp [runLoop, runReviewerWithTimeout, runRevieweeWithTimeout, hrev, hfix, ha] at h
          rcases h with h | h <;> omega
        | err m =>
          simp [runLoop, runReviewerWithTimeout, runRevieweeWithTimeout, hrev, hfix, ha] at h
          rcases h with h | h <;> omega
        | ok fix =>
          cases hst : fix.status with
          | completed =>
            simp [runLoop, runReviewerWithTimeout, runRevieweeWithTimeout, hrev, hfix, ha, hst] at h
            rcases h with h | h
            · rcases h with h | h
              · omega
              · have := ih (iter + 1) k (Or.inl h); omega
            · rcases h with h | h
              · omega
              · have := ih (iter + 1) k (Or.inr h); omega
          | needsClarification =>
            cases hq : fix.question with
            | some q =>
              simp [runLoop, runReviewerWithTimeout, runRevieweeWithTimeout, hrev, hfix, ha, hst, hq] at h
              rcases h with h | h <;> omega
            | none =>
              simp [runLoop, runReviewerWithTimeout, runRevieweeWithTimeout, hrev, hfix, ha, hst, hq] at h
              rcases h with h | h
              · rcases h with h | h
                · omega
                · have := ih (iter + 1) k (Or.inl h); omega
              · rcases h with h | h
                · omega
                · have := ih (iter + 1) k (Or.inr h); omega
          | needsPermission =>
            cases hp : fix.permissionRequest with
            | some p =>
              simp [runLoop, runReviewerWithTimeout, runRevieweeWithTimeout, hrev, hfix, ha, hst, hp] at h
              rcases h with h | h <;> omega
            | none =>
              simp [runLoop, runReviewerWithTimeout, runRevieweeWithTimeout, hrev, hfix, ha, hst, hp] at h
              rcases h with h | h
              · rcases h with h | h
                · omega
                · have := ih (iter + 1) k (Or.inl h); omega
              · rcases h with h | h
                · omega
                · have := ih (iter + 1) k (Or.inr h); omega
          | error =>
            simp [runLoop, runReviewerWithTimeout, runRevieweeWithTimeout, hrev, hfix, ha, hst] at h
            rcases h with h | h <;> omega

/-- If the loop invokes the reviewer at iteration `k` and that verdict is an
approval, the loop returns `Approved{k, summary}`, persists the session with
state `Completed` at iteration `k`, and never invokes the reviewee at
iteration `k`. -/
lemma runLoop_approve (cfg : AiConfig) (repo : String) (prNumber : Nat)
    (reviewer : Nat → AgentResult ReviewerOutput)
    (reviewee : Nat → AgentResult RevieweeOutput)
    (k : Nat) (r : ReviewerOutput)
    (hr : reviewer k = .ok r) (ha : r.action = .approve) :
    ∀ fuel iter,
      Step.reviewerCall k ∈ (runLoop cfg repo prNumber reviewer reviewee iter fuel).1 →
      (runLoop cfg repo prNumber reviewer reviewee iter fuel).2 =
          .ok (.approved k r.summary) ∧
        Step.writeSession ⟨repo, prNumber, k, .completed⟩ ∈
          (runLoop cfg repo prNumber reviewer reviewee iter fuel).1 ∧
        Step.revieweeCall k ∉ (runLoop cfg repo prNumber reviewer reviewee iter fuel).1 := by
  intro fuel
  induction fuel with
  | zero =>
    intro iter h
    simp [runLoop] at h
  | succ f ih =>
    intro iter h
    cases hrev : reviewer (iter + 1) with
    | timeout =>
      simp [runLoop, runReviewerWithTimeout, hrev] at h
      rw [h, hrev] at hr
      exact absurd hr (by simp)
    | err m =>
      simp [runLoop, runReviewerWithTimeout, hrev] at h
      rw [h, hrev] at hr
      exact absurd hr (by simp)
    | ok r' =>
      by_cases ha' : r'.action = ReviewAction.approve
      · simp only [runLoop, runReviewerWithTimeout, hrev, ha', if_true] at h ⊢
        simp at h
        rw [h] at hr
        rw [hrev] at hr
        have hrr : r = r' := by
          have := hr
          injection this with h2
          exact h2.symm
        subst hrr
        subst h
        refine ⟨rfl, by simp, by simp⟩
      · cases hfix : reviewee (iter + 1) with
        | timeout =>
          simp [runLoop, runReviewerWithTimeout, runRevieweeWithTimeout, hrev, hfix, ha'] at h
          rw [h, hrev] at hr
          injection hr with h2
          rw [h2] at ha'
          exact absurd ha ha'
        | err m =>
          simp [runLoop, runReviewerWithTimeout, runRevieweeWithTimeout, hrev, hfix, ha'] at h
          rw [h, hrev] at hr
          injection hr with h2
          rw [h2] at ha'
          exact absurd ha ha'
        | ok fix =>
          have knei : Step.reviewerCall k ∈
              (runLoop cfg repo prNumber reviewer reviewee (iter + 1) f).1 → iter + 1 < k :=
            fun hm => runLoop_call_gt cfg repo prNumber reviewer reviewee f (iter + 1) k
              (Or.inl hm)
          have contra : k = iter + 1 → False := by
            intro hk
            rw [hk, hrev] at hr
            injection hr with h2
            rw [h2] at ha'
            exact ha' ha
          cases hst : fix.status with
          | completed =>
            simp only [runLoop, runReviewerWithTimeout, runRevieweeWithTimeout, hrev, hfix,
              ha', hst] at h ⊢
            simp [ha'] at h ⊢
            rcases h with h | h
            · exact absurd h contra
            · obtain ⟨hres, hmem, hnot⟩ := ih (iter + 1) h
              have hgt := knei h
              exact ⟨hres, hmem, fun hk => by omega, hnot⟩
          | needsClarification =>
            cases hq : fix.question with
            | some q =>
              simp [runLoop, runReviewerWithTimeout, runRevieweeWithTimeout, hrev, hfix,
                ha', hst, hq] at h
              exact absurd h contra
            | none =>
              simp only [runLoop, runReviewerWithTimeout, runRevieweeWithTimeout, hrev, hfix,
                ha', hst, hq] at h ⊢
              simp [ha'] at h ⊢
              rcases h with h | h
              · exact absurd h contra
              · obtain ⟨hres, hmem, hnot⟩ := ih (iter + 1) h
                have hgt := knei h
                exact ⟨hres, hmem, fun hk => by omega, hnot⟩
          | needsPermission =>
            cases hp : fix.permissionRequest with
            | some p =>
              simp [runLoop, runReviewerWithTimeout, runRevieweeWithTimeout, hrev, hfix,
                ha', hst, hp] at h
              exact absurd h contra
            | none =>
              simp only [runLoop, runReviewerWithTimeout, runRevieweeWithTimeout, hrev, hfix,
                ha', hst, hp] at h ⊢
              simp [ha'] at h ⊢
              rcases h with h | h
              · exact absurd h contra
              · obtain ⟨hres, hmem, hnot⟩ := ih (iter + 1) h
                have hgt := knei h
                exact ⟨hres, hmem, fun hk => by omega, hnot⟩
          | error =>
            simp [runLoop, runReviewerWithTimeout, runRevieweeWithTimeout, hrev, hfix,
              ha', hst] at h
            exact absurd h contra

/-- A singleton trace ends with its only element. -/
lemma exists_concat_singleton {α : Type} {x : α} :
    ∃ t, [x] = t ++ [x] ∧ x ∉ t :=
  ⟨[], rfl, by simp⟩

/-- Prepending a different step preserves the ends-with decomposition. -/
lemma exists_concat_cons {α : Type} {a x : α} {l : List α} (hax : a ≠ x)
    (h : ∃ t, l = t ++ [x] ∧ x ∉ t) :
    ∃ t, a :: l = t ++ [x] ∧ x ∉ t := by
  obtain ⟨t, ht, hn⟩ := h
  refine ⟨a :: t, by rw [ht]; rfl, ?_⟩
  intro hmem
  rcases List.mem_cons.mp hmem with h' | h'
  · exact hax h'.symm
  · exact hn h'

/-- If the loop invokes the reviewer at iteration `k` and that invocation
times out, the loop fails with the `Reviewer timeout after {timeout_secs}
seconds` error and the timed-out invocation is the last step of the trace
(nothing is retried, no later step happens). -/
lemma runLoop_reviewer_timeout (cfg : AiConfig) (repo : String) (prNumber : Nat)
    (reviewer : Nat → AgentResult ReviewerOutput)
    (reviewee : Nat → AgentResult RevieweeOutput)
    (k : Nat) (ht : reviewer k = .timeout) :
    ∀ fuel iter,
      Step.reviewerCall k ∈ (runLoop cfg repo prNumber reviewer reviewee iter fuel).1 →
      (runLoop cfg repo prNumber reviewer reviewee iter fuel).2 =
          .error ("Reviewer timeout after " ++ toString cfg.timeout_secs ++ " seconds") ∧
        ∃ t, (runLoop cfg repo prNumber reviewer reviewee iter fuel).1 =
            t ++ [Step.reviewerCall k] ∧ Step.reviewerCall k ∉ t := by
  intro fuel
  induction fuel with
  | zero =>
    intro iter h
    simp [runLoop] at h
  | succ f ih =>
    intro iter h
    cases hrev : reviewer (iter + 1) with
    | timeout =>
      simp only [runLoop, runReviewerWithTimeout, hrev] at h ⊢
      simp at h
      subst h
      refine ⟨by simp, ?_⟩
      repeat first
        | exact exists_concat_singleton
        | refine exists_concat_cons (by simp) ?_
    | err m =>
      simp [runLoop, runReviewerWithTimeout, hrev] at h
      rw [h, hrev] at ht
      exact absurd ht (by simp)
    | ok r' =>
      have contra : k = iter + 1 → False := by
        intro hk
        rw [hk, hrev] at ht
        exact absurd ht (by simp)
      by_cases ha' : r'.action = ReviewAction.approve
      · simp only [runLoop, runReviewerWithTimeout, hrev, ha', if_true] at h ⊢
        simp at h
        exact absurd h contra
      · cases hfix : reviewee (iter + 1) with
        | timeout =>
          simp [runLoop, runReviewerWithTimeout, runRevieweeWithTimeout, hrev, hfix, ha'] at h
          exact absurd h contra
        | err m =>
          simp [runLoop, runReviewerWithTimeout, runRevieweeWithTimeout, hrev, hfix, ha'] at h
          exact absurd h contra
        | ok fix =>
          have hgt : Step.reviewerCall k ∈
              (runLoop cfg repo prNumber reviewer reviewee (iter + 1) f).1 → iter + 1 < k :=
            fun hm => runLoop_call_gt cfg repo prNumber reviewer reviewee f (iter + 1) k
              (Or.inl hm)
          cases hst : fix.status with
          | completed =>
            simp only [runLoop, runReviewerWithTimeout, runRevieweeWithTimeout, hrev, hfix,
              ha', hst] at h ⊢
            simp [ha'] at h ⊢
            rcases h with h | h
            · exact absurd h contra
            · obtain ⟨hres, t', ht', hnot'⟩ := ih (iter + 1) h
              have hlt := hgt h
              refine ⟨hres, ?_⟩
              rw [ht']
              repeat first
                | exact ⟨t', rfl, hnot'⟩
                | refine exists_concat_cons (by simp <;> omega) ?_
          | needsClarification =>
            cases hq : fix.question with
            | some q =>
              simp [runLoop, runReviewerWithTimeout, runRevieweeWithTimeout, hrev, hfix,
                ha', hst, hq] at h
              exact absurd h contra
            | none =>
              simp only [runLoop, runReviewerWithTimeout, runRevieweeWithTimeout, hrev, hfix,
                ha', hst, hq] at h ⊢
              simp [ha'] at h ⊢
              rcases h with h | h
              · exact absurd h contra
              · obtain ⟨hres, t', ht', hnot'⟩ := ih (iter + 1) h
                have hlt := hgt h
                refine ⟨hres, ?_⟩
                rw [ht']
                repeat first
                  | exact ⟨t', rfl, hnot'⟩
                  | refine exists_concat_cons (by simp <;> omega) ?_
          | needsPermission =>
            cases hp : fix.permissionRequest with
            | some p =>
              simp [runLoop, runReviewerWithTimeout, runRevieweeWithTimeout, hrev, hfix,
                ha', hst, hp] at h
              exact absurd h contra
            | none =>
              simp only [runLoop, runReviewerWithTimeout, runRevieweeWithTimeout, hrev, hfix,
                ha', hst, hp] at h ⊢
              simp [ha'] at h ⊢
              rcases h with h | h
              · exact absurd h contra
              · obtain ⟨hres, t', ht', hnot'⟩ := ih (iter + 1) h
                have hlt := hgt h
                refine ⟨hres, ?_⟩
                rw [ht']
                repeat first
                  | exact ⟨t', rfl, hnot'⟩
                  | refine exists_concat_cons (by simp <;> omega) ?_
          | error =>
            simp [runLoop, runReviewerWithTimeout, runRevieweeWithTimeout, hrev, hfix,
              ha', hst] at h
            exact absurd h contra

/-- If the loop invokes the reviewee at iteration `k` and that invocation
times out, the loop fails with the `Reviewee timeout after {timeout_secs}
seconds` error and the timed-out invocation is the last step of the trace. -/
lemma runLoop_reviewee_timeout (cfg : AiConfig) (repo : String) (prNumber : Nat)
    (reviewer : Nat → AgentResult ReviewerOutput)
    (reviewee : Nat → AgentResult RevieweeOutput)
    (k : Nat) (ht : reviewee k = .timeout) :
    ∀ fuel iter,
      Step.revieweeCall k ∈ (runLoop cfg repo prNumber reviewer reviewee iter fuel).1 →
      (runLoop cfg repo prNumber reviewer reviewee iter fuel).2 =
          .error ("Reviewee timeout after " ++ toString cfg.timeout_secs ++ " seconds") ∧
        ∃ t, (runLoop cfg repo prNumber reviewer reviewee iter fuel).1 =
            t ++ [Step.revieweeCall k] ∧ Step.revieweeCall k ∉ t := by
  intro fuel
  induction fuel with
  | zero =>
    intro iter h
    simp [runLoop] at h
  | succ f ih =>
    intro iter h
    cases hrev : reviewer (iter + 1) with
    | timeout =>
      simp [runLoop, runReviewerWithTimeout, hrev] at h
    | err m =>
      simp [runLoop, runReviewerWithTimeout, hrev] at h
    | ok r' =>
      by_cases ha' : r'.action = ReviewAction.approve
      · simp only [runLoop, runReviewerWithTimeout, hrev, ha', if_true] at h ⊢
        simp at h
      · cases hfix : reviewee (iter + 1) with
        | timeout =>
          simp only [runLoop, runReviewerWithTimeout, runRevieweeWithTimeout, hrev, hfix,
            ha'] at h ⊢
          simp [ha'] at h ⊢
          subst h
          repeat first
            | exact exists_concat_singleton
            | refine exists_concat_cons (by simp) ?_
        | err m =>
          simp [runLoop, runReviewerWithTimeout, runRevieweeWithTimeout, hrev, hfix, ha'] at h
          rw [h, hfix] at ht
          exact absurd ht (by simp)
        | ok fix =>
          have contra : k = iter + 1 → False := by
            intro hk
            rw [hk, hfix] at ht
            exact absurd ht (by simp)
          have hgt : Step.revieweeCall k ∈
              (runLoop cfg repo prNumber reviewer reviewee (iter + 1) f).1 → iter + 1 < k :=
            fun hm => runLoop_call_gt cfg repo prNumber reviewer reviewee f (iter + 1) k
              (Or.inr hm)
          cases hst : fix.status with
          | completed =>
            simp only [runLoop, runReviewerWithTimeout, runRevieweeWithTimeout, hrev, hfix,
              ha', hst] at h ⊢
            simp [ha'] at h ⊢
            rcases h with h | h
            · exact absurd h contra
            · obtain ⟨hres, t', ht', hnot'⟩ := ih (iter + 1) h
              have hlt := hgt h
              refine ⟨hres, ?_⟩
              rw [ht']
              repeat first
                | exact ⟨t', rfl, hnot'⟩
                | refine exists_concat_cons (by simp <;> omega) ?_
          | needsClarification =>
            cases hq : fix.question with
            | some q =>
              simp [runLoop, runReviewerWithTimeout, runRevieweeWithTimeout, hrev, hfix,
                ha', hst, hq] at h
              exact absurd h contra
            | none =>
              simp only [runLoop, runReviewerWithTimeout, runRevieweeWithTimeout, hrev, hfix,
                ha', hst, hq] at h ⊢
              simp [ha'] at h ⊢
              rcases h with h | h
              · exact absurd h contra
              · obtain ⟨hres, t', ht', hnot'⟩ := ih (iter + 1) h
                have hlt := hgt h
                refine ⟨hres, ?_⟩
                rw [ht']
                repeat first
                  | exact ⟨t', rfl, hnot'⟩
                  | refine exists_concat_cons (by simp <;> omega) ?_
          | needsPermission =>
            cases hp : fix.permissionRequest with
            | some p =>
              simp [runLoop, runReviewerWithTimeout, runRevieweeWithTimeout, hrev, hfix,
                ha', hst, hp] at h
              exact absurd h contra
            | none =>
              simp only [runLoop, runReviewerWithTimeout, runRevieweeWithTimeout, hrev, hfix,
                ha', hst, hp] at h ⊢
              simp [ha'] at h ⊢
              rcases h with h | h
              · exact absurd h contra
              · obtain ⟨hres, t', ht', hnot'⟩ := ih (iter + 1) h
                have hlt := hgt h
                refine ⟨hres, ?_⟩
                rw [ht']
                repeat first
                  | exact ⟨t', rfl, hnot'⟩
                  | refine exists_concat_cons (by simp <;> omega) ?_
          | error =>
            simp [runLoop, runReviewerWithTimeout, runRevieweeWithTimeout, hrev, hfix,
              ha', hst] at h
            exact absurd h contra

/-- If the reviewer never approves and the reviewee always declares
`NeedsClarification` without a question or `NeedsPermission` without a
request, the loop silently ignores the missing payload on every iteration:
it runs to exhaustion, emits no `ClarificationNeeded` or `PermissionNeeded`
event, and never persists a waiting state. -/
lemma runLoop_missing_payload (cfg : AiConfig) (repo : String) (prNumber : Nat)
    (reviewer : Nat → AgentResult ReviewerOutput)
    (reviewee : Nat → AgentResult RevieweeOutput)
    (R : Nat → ReviewerOutput) (F : Nat → RevieweeOutput)
    (hR : ∀ n, reviewer n = AgentResult.ok (R n))
    (hRa : ∀ n, (R n).action ≠ ReviewAction.approve)
    (hF : ∀ n, reviewee n = AgentResult.ok (F n))
    (hFs : ∀ n, ((F n).status = RevieweeStatus.needsClarification ∧ (F n).question = none) ∨
                ((F n).status = RevieweeStatus.needsPermission ∧ (F n).permissionRequest = none)) :
    ∀ fuel iter,
      (runLoop cfg repo prNumber reviewer reviewee iter fuel).2 =
          .ok (.maxIterationsReached (iter + fuel)) ∧
        (∀ q, Step.event (RallyEvent.clarificationNeeded q) ∉
          (runLoop cfg repo prNumber reviewer reviewee iter fuel).1) ∧
        (∀ a b, Step.event (RallyEvent.permissionNeeded a b) ∉
          (runLoop cfg repo prNumber reviewer reviewee iter fuel).1) ∧
        (∀ s : RallySession, Step.writeSession s ∈
            (runLoop cfg repo prNumber reviewer reviewee iter fuel).1 →
          s.state ≠ RallyState.waitingForClarification ∧
            s.state ≠ RallyState.waitingForPermission) := by
  intro fuel
  induction fuel with
  | zero =>
    intro iter
    refine ⟨by simp [runLoop], ?_, ?_, ?_⟩ <;> simp [runLoop]
  | succ f ih =>
    intro iter
    obtain ⟨ihres, ihq, ihp, ihw⟩ := ih (iter + 1)
    have harith : iter + 1 + f = iter + (f + 1) := by omega
    rcases hFs (iter + 1) with ⟨hs, hpay⟩ | ⟨hs, hpay⟩ <;>
    · simp only [runLoop, runReviewerWithTimeout, runRevieweeWithTimeout, hR, hF, hs, hpay,
        hRa (iter + 1), if_neg, ite_false]
      rw [harith] at ihres
      refine ⟨?_, ?_, ?_, ?_⟩
      · simpa using ihres
      · intro q hmem
        simp at hmem
        exact ihq q hmem
      · intro a b hmem
        simp at hmem
        exact ihp a b hmem
      · intro s hmem
        simp at hmem
        rcases hmem with h | h | h
        · subst h; simp
        · subst h; simp
        · exact ihw s h

/-- Order discipline of session writes versus `StateChanged` events along any
loop trace: for `ReviewerReviewing` and `RevieweeFix` the event is emitted
before the session write; for `Completed`, the waiting states and `Error` the
session write happens before the event. -/
lemma runLoop_order (cfg : AiConfig) (repo : String) (prNumber : Nat)
    (reviewer : Nat → AgentResult ReviewerOutput)
    (reviewee : Nat → AgentResult RevieweeOutput) :
    ∀ fuel iter,
      (∀ c, ordered (isStateChangedEvent RallyState.reviewerReviewing)
        (isSessionWrite RallyState.reviewerReviewing) c
        (runLoop cfg repo prNumber reviewer reviewee iter fuel).1 = true) ∧
      (∀ c, ordered (isStateChangedEvent RallyState.revieweeFix)
        (isSessionWrite RallyState.revieweeFix) c
        (runLoop cfg repo prNumber reviewer reviewee iter fuel).1 = true) ∧
      (∀ c, ordered (isSessionWrite RallyState.completed)
        (isStateChangedEvent RallyState.completed) c
        (runLoop cfg repo prNumber reviewer reviewee iter fuel).1 = true) ∧
      (∀ c, ordered (isSessionWrite RallyState.waitingForClarification)
        (isStateChangedEvent RallyState.waitingForClarification) c
        (runLoop cfg repo prNumber reviewer reviewee iter fuel).1 = true) ∧
      (∀ c, ordered (isSessionWrite RallyState.waitingForPermission)
        (isStateChangedEvent RallyState.waitingForPermission) c
        (runLoop cfg repo prNumber reviewer reviewee iter fuel).1 = true) ∧
      (∀ c, ordered (isSessionWrite RallyState.error)
        (isStateChangedEvent RallyState.error) c
        (runLoop cfg repo prNumber reviewer reviewee iter fuel).1 = true) := by
  intro fuel
  induction fuel with
  | zero =>
    intro iter
    refine ⟨fun c => ?_, fun c => ?_, fun c => ?_, fun c => ?_, fun c => ?_, fun c => ?_⟩ <;>
      simp [runLoop, ordered, isStateChangedEvent, isSessionWrite]
  | succ f ih =>
    intro iter
    obtain ⟨ih1, ih2, ih3, ih4, ih5, ih6⟩ := ih (iter + 1)
    cases hrev : reviewer (iter + 1) with
    | timeout =>
      refine ⟨fun c => ?_, fun c => ?_, fun c => ?_, fun c => ?_, fun c => ?_, fun c => ?_⟩ <;>
        simp [runLoop, runReviewerWithTimeout, hrev, ordered, isStateChangedEvent, isSessionWrite]
    | err m =>
      refine ⟨fun c => ?_, fun c => ?_, fun c => ?_, fun c => ?_, fun c => ?_, fun c => ?_⟩ <;>
        simp [runLoop, runReviewerWithTimeout, hrev, ordered, isStateChangedEvent, isSessionWrite]
    | ok r' =>
      by_cases ha' : r'.action = ReviewAction.approve
      · refine ⟨fun c => ?_, fun c => ?_, fun c => ?_, fun c => ?_, fun c => ?_, fun c => ?_⟩ <;>
          simp [runLoop, runReviewerWithTimeout, hrev, ha', ordered, isStateChangedEvent,
            isSessionWrite]
      · cases hfix : reviewee (iter + 1) with
        | timeout =>
          refine ⟨fun c => ?_, fun c => ?_, fun c => ?_, fun c => ?_, fun c => ?_, fun c => ?_⟩ <;>
            simp [runLoop, runReviewerWithTimeout, runRevieweeWithTimeout, hrev, hfix, ha',
              ordered, isStateChangedEvent, isSessionWrite]
        | err m =>
          refine ⟨fun c => ?_, fun c => ?_, fun c => ?_, fun c => ?_, fun c => ?_, fun c => ?_⟩ <;>
            simp [runLoop, runReviewerWithTimeout, runRevieweeWithTimeout, hrev, hfix, ha',
              ordered, isStateChangedEvent, isSessionWrite]
        | ok fix =>
          cases hst : fix.status with
          | completed =>
            refine ⟨fun c => ?_, fun c => ?_, fun c => ?_, fun c => ?_, fun c => ?_, fun c => ?_⟩ <;>
              simp [runLoop, runReviewerWithTimeout, runRevieweeWithTimeout, hrev, hfix, ha',
                hst, ordered, isStateChangedEvent, isSessionWrite] <;>
              first
                | exact ih1 c
                | exact ih2 c
                | exact ih3 c
                | exact ih4 c
                | exact ih5 c
                | exact ih6 c
          | needsClarification =>
            cases hq : fix.question with
            | some q =>
              refine ⟨fun c => ?_, fun c => ?_, fun c => ?_, fun c => ?_, fun c => ?_, fun c => ?_⟩ <;>
                simp [runLoop, runReviewerWithTimeout, runRevieweeWithTimeout, hrev, hfix, ha',
                  hst, hq, ordered, isStateChangedEvent, isSessionWrite]
            | none =>
              refine ⟨fun c => ?_, fun c => ?_, fun c => ?_, fun c => ?_, fun c => ?_, fun c => ?_⟩ <;>
                simp [runLoop, runReviewerWithTimeout, runRevieweeWithTimeout, hrev, hfix, ha',
                  hst, hq, ordered, isStateChangedEvent, isSessionWrite] <;>
                first
                  | exact ih1 c
                  | exact ih2 c
                  | exact ih3 c
                  | exact ih4 c
                  | exact ih5 c
                  | exact ih6 c
          | needsPermission =>
            cases hp : fix.permissionRequest with
            | some p =>
              refine ⟨fun c => ?_, fun c => ?_, fun c => ?_, fun c => ?_, fun c => ?_, fun c => ?_⟩ <;>
                simp [runLoop, runReviewerWithTimeout, runRevieweeWithTimeout, hrev, hfix, ha',
                  hst, hp, ordered, isStateChangedEvent, isSessionWrite]
            | none =>
              refine ⟨fun c => ?_, fun c => ?_, fun c => ?_, fun c => ?_, fun c => ?_, fun c => ?_⟩ <;>
                simp [runLoop, runReviewerWithTimeout, runRevieweeWithTimeout, hrev, hfix, ha',
                  hst, hp, ordered, isStateChangedEvent, isSessionWrite] <;>
                first
                  | exact ih1 c
                  | exact ih2 c
                  | exact ih3 c
                  | exact ih4 c
                  | exact ih5 c
                  | exact ih6 c
          | error =>
            refine ⟨fun c => ?_, fun c => ?_, fun c => ?_, fun c => ?_, fun c => ?_, fun c => ?_⟩ <;>
              simp [runLoop, runReviewerWithTimeout, runRevieweeWithTimeout, hrev, hfix, ha',
                hst, ordered, isStateChangedEvent, isSessionWrite]

/-- C1: for every run in which the reviewer verdict of iteration `k` has
action `Approve`, `run()` terminates with `Approved{iteration: k, summary of
that verdict}`, the session is persisted with state `Completed` (at iteration
`k`), and no reviewee call occurs for iteration `k`. -/
theorem approval_short_circuit (cfg : AiConfig) (repo : String) (prNumber : Nat)
    (reviewer : Nat → AgentResult ReviewerOutput)
    (reviewee : Nat → AgentResult RevieweeOutput) (ctx : Context)
    (k : Nat) (r : ReviewerOutput)
    (hcall : Step.reviewerCall k ∈
      (Orchestrator.run cfg repo prNumber reviewer reviewee (some ctx)).1)
    (hr : reviewer k = .ok r) (ha : r.action = .approve) :
    (Orchestrator.run cfg repo prNumber reviewer reviewee (some ctx)).2 =
        .ok (.approved k r.summary) ∧
      Step.writeSession ⟨repo, prNumber, k, .completed⟩ ∈
        (Orchestrator.run cfg repo prNumber reviewer reviewee (some ctx)).1 ∧
      Step.revieweeCall k ∉
        (Orchestrator.run cfg repo prNumber reviewer reviewee (some ctx)).1 := by
  have hc : Step.reviewerCall k ∈
      (runLoop cfg repo prNumber reviewer reviewee 0 cfg.max_iterations).1 := by
    simpa [Orchestrator.run] using hcall
  obtain ⟨hres, hmem, hnot⟩ :=
    runLoop_approve cfg repo prNumber reviewer reviewee k r hr ha cfg.max_iterations 0 hc
  refine ⟨by simpa [Orchestrator.run] using hres, ?_, ?_⟩
  · simp only [Orchestrator.run]
    exact List.mem_cons_of_mem _ hmem
  · simp only [Orchestrator.run]
    intro hmem'
    rcases List.mem_cons.mp hmem' with h' | h'
    · exact absurd h' (by simp)
    · exact hnot h'

/-- Witness for C1 at a concrete input: one iteration, an approving
reviewer. -/
theorem approval_short_circuit_witness :
    (Orchestrator.run ⟨1, 60⟩ "r" 1 (fun _ => .ok approveReview)
        (fun _ => .ok completedFix) (some sampleContext)).2 =
        .ok (.approved 1 "ok") ∧
      Step.writeSession ⟨"r", 1, 1, .completed⟩ ∈
        (Orchestrator.run ⟨1, 60⟩ "r" 1 (fun _ => .ok approveReview)
          (fun _ => .ok completedFix) (some sampleContext)).1 ∧
      Step.revieweeCall 1 ∉
        (Orchestrator.run ⟨1, 60⟩ "r" 1 (fun _ => .ok approveReview)
          (fun _ => .ok completedFix) (some sampleContext)).1 :=
  approval_short_circuit ⟨1, 60⟩ "r" 1 (fun _ => .ok approveReview)
    (fun _ => .ok completedFix) sampleContext 1 approveReview (by decide) rfl rfl

/-- C2 counterexample: a reviewee output declaring `NeedsClarification` with
no question does not make `run()` fail; the run returns the `RallyResult`
`MaxIterationsReached{1}` (the malformed payload is silently ignored). -/
theorem missing_payload_no_error_cex :
    clarifNoneFix.status = RevieweeStatus.needsClarification ∧
      clarifNoneFix.question = none ∧
      (Orchestrator.run ⟨1, 60⟩ "r" 1 (fun _ => .ok reqChangesReview)
          (fun _ => .ok clarifNoneFix) (some sampleContext)).2 =
        .ok (.maxIterationsReached 1) :=
  ⟨rfl, rfl, rfl⟩

/-- C2 amended: a `NeedsClarification` output with no question or a
`NeedsPermission` output with no request is silently ignored: no
`ClarificationNeeded`/`PermissionNeeded` event, no waiting state persisted,
the loop falls through each iteration and the run returns
`MaxIterationsReached` instead of failing. -/
theorem missing_payload_silent_fallthrough (cfg : AiConfig) (repo : String)
    (prNumber : Nat) (reviewer : Nat → AgentResult ReviewerOutput)
    (reviewee : Nat → AgentResult RevieweeOutput) (ctx : Context)
    (R : Nat → ReviewerOutput) (F : Nat → RevieweeOutput)
    (hR : ∀ n, reviewer n = AgentResult.ok (R n))
    (hRa : ∀ n, (R n).action ≠ ReviewAction.approve)
    (hF : ∀ n, reviewee n = AgentResult.ok (F n))
    (hFs : ∀ n, ((F n).status = RevieweeStatus.needsClarification ∧ (F n).question = none) ∨
                ((F n).status = RevieweeStatus.needsPermission ∧
                  (F n).permissionRequest = none)) :
    (Orchestrator.run cfg repo prNumber reviewer reviewee (some ctx)).2 =
        .ok (.maxIterationsReached cfg.max_iterations) ∧
      (∀ q, Step.event (RallyEvent.clarificationNeeded q) ∉
        (Orchestrator.run cfg repo prNumber reviewer reviewee (some ctx)).1) ∧
      (∀ a b, Step.event (RallyEvent.permissionNeeded a b) ∉
        (Orchestrator.run cfg repo prNumber reviewer reviewee (some ctx)).1) ∧
      (∀ s : RallySession, Step.writeSession s ∈
          (Orchestrator.run cfg repo prNumber reviewer reviewee (some ctx)).1 →
        s.state ≠ RallyState.waitingForClarification ∧
          s.state ≠ RallyState.waitingForPermission) := by
  obtain ⟨hres, hq, hp, hw⟩ :=
    runLoop_missing_payload cfg repo prNumber reviewer reviewee R F hR hRa hF hFs
      cfg.max_iterations 0
  refine ⟨by simpa [Orchestrator.run] using hres, ?_, ?_, ?_⟩
  · intro q hmem
    simp only [Orchestrator.run] at hmem
    rcases List.mem_cons.mp hmem with h' | h'
    · exact absurd h' (by simp)
    · exact hq q h'
  · intro a b hmem
    simp only [Orchestrator.run] at hmem
    rcases List.mem_cons.mp hmem with h' | h'
    · exact absurd h' (by simp)
    · exact hp a b h'
  · intro s hmem
    simp only [Orchestrator.run] at hmem
    rcases List.mem_cons.mp hmem with h' | h'
    · exact absurd h' (by simp)
    · exact hw s h'

/-- Witness for the amended C2 at a concrete input: two iterations of
question-less `NeedsClarification` outputs fall through to exhaustion. -/
theorem missing_payload_silent_fallthrough_witness :
    (Orchestrator.run ⟨2, 60⟩ "r" 1 (fun _ => .ok reqChangesReview)
        (fun _ => .ok clarifNoneFix) (some sampleContext)).2 =
        .ok (.maxIterationsReached 2) ∧
      (∀ q, Step.event (RallyEvent.clarificationNeeded q) ∉
        (Orchestrator.run ⟨2, 60⟩ "r" 1 (fun _ => .ok reqChangesReview)
          (fun _ => .ok clarifNoneFix) (some sampleContext)).1) ∧
      (∀ a b, Step.event (RallyEvent.permissionNeeded a b) ∉
        (Orchestrator.run ⟨2, 60⟩ "r" 1 (fun _ => .ok reqChangesReview)
          (fun _ => .ok clarifNoneFix) (some sampleContext)).1) ∧
      (∀ s : RallySession, Step.writeSession s ∈
          (Orchestrator.run ⟨2, 60⟩ "r" 1 (fun _ => .ok reqChangesReview)
            (fun _ => .ok clarifNoneFix) (some sampleContext)).1 →
        s.state ≠ RallyState.waitingForClarification ∧
          s.state ≠ RallyState.waitingForPermission) :=
  missing_payload_silent_fallthrough ⟨2, 60⟩ "r" 1 (fun _ => .ok reqChangesReview)
    (fun _ => .ok clarifNoneFix) sampleContext (fun _ => reqChangesReview)
    (fun _ => clarifNoneFix) (fun _ => rfl)
    (fun _ => (by decide : reqChangesReview.action ≠ ReviewAction.approve))
    (fun _ => rfl) (fun _ => Or.inl ⟨rfl, rfl⟩)

/-- C3 counterexample: on a concrete run the transitions to
`ReviewerReviewing` and `RevieweeFix` are not persisted before the
corresponding `StateChanged` events are emitted. -/
theorem persist_before_emit_cex :
    ¬ persistBeforeEmit
        (Orchestrator.run ⟨1, 60⟩ "r" 1 (fun _ => .ok reqChangesReview)
          (fun _ => .ok completedFix) (some sampleContext)).1
        RallyState.reviewerReviewing ∧
      ¬ persistBeforeEmit
        (Orchestrator.run ⟨1, 60⟩ "r" 1 (fun _ => .ok reqChangesReview)
          (fun _ => .ok completedFix) (some sampleContext)).1
        RallyState.revieweeFix := by
  unfold persistBeforeEmit
  decide

/-- C3 amended: in every run the `StateChanged` event for `ReviewerReviewing`
and for `RevieweeFix` is emitted before the corresponding session write,
while the transitions to `Completed`, `WaitingForClarification`,
`WaitingForPermission` and `Error` are each persisted before the
corresponding `StateChanged` event is emitted. -/
theorem state_persist_emit_order (cfg : AiConfig) (repo : String) (prNumber : Nat)
    (reviewer : Nat → AgentResult ReviewerOutput)
    (reviewee : Nat → AgentResult RevieweeOutput) (ctx : Context) :
    emitBeforePersist
        (Orchestrator.run cfg repo prNumber reviewer reviewee (some ctx)).1
        RallyState.reviewerReviewing ∧
      emitBeforePersist
        (Orchestrator.run cfg repo prNumber reviewer reviewee (some ctx)).1
        RallyState.revieweeFix ∧
      persistBeforeEmit
        (Orchestrator.run cfg repo prNumber reviewer reviewee (some ctx)).1
        RallyState.completed ∧
      persistBeforeEmit
        (Orchestrator.run cfg repo prNumber reviewer reviewee (some ctx)).1
        RallyState.waitingForClarification ∧
      persistBeforeEmit
        (Orchestrator.run cfg repo prNumber reviewer reviewee (some ctx)).1
        RallyState.waitingForPermission ∧
      persistBeforeEmit
        (Orchestrator.run cfg repo prNumber reviewer reviewee (some ctx)).1
        RallyState.error := by
  obtain ⟨h1, h2, h3, h4, h5, h6⟩ :=
    runLoop_order cfg repo prNumber reviewer reviewee cfg.max_iterations 0
  refine ⟨?_, ?_, ?_, ?_, ?_, ?_⟩ <;>
    simp [Orchestrator.run, persistBeforeEmit, emitBeforePersist, ordered,
      isStateChangedEvent, isSessionWrite] <;>
    first
      | exact h1 0
      | exact h2 0
      | exact h3 0
      | exact h4 0
      | exact h5 0
      | exact h6 0

/-- C4 counterexample: on a full sink the event handed to `send_event` is not
dropped — the underlying bounded-channel send suspends the caller until
capacity frees, so the run does not proceed identically to the available
case. -/
theorem full_sink_drop_cex :
    (send_event SinkState.full).1 ≠ SendOutcome.dropped ∧
      (send_event SinkState.full).1 = SendOutcome.suspendedUntilCapacity ∧
      (send_event SinkState.full).1 ≠ (send_event SinkState.available).1 := by
  decide

/-- C4 amended: `send_event` never fails the run for any sink state; on a
closed sink the event is silently dropped without blocking; on a full sink
the event is not dropped — the send suspends the core loop until the sink
has capacity. -/
theorem event_sink_semantics :
    send_event SinkState.closed = (SendOutcome.dropped, Except.ok ()) ∧
      send_event SinkState.full = (SendOutcome.suspendedUntilCapacity, Except.ok ()) ∧
      ∀ s : SinkState, (send_event s).2 = Except.ok () :=
  ⟨rfl, rfl, fun _ => rfl⟩

/-- C5: with `max_iterations = 3`, a reviewer that always answers without
approving and a reviewee that always answers with status `Completed`,
`run()` returns `MaxIterationsReached{3}` after exactly 3 reviewer
invocations and exactly 3 reviewee invocations. -/
theorem exhaustion_three_iterations (repo : String) (prNumber : Nat) (secs : Nat)
    (reviewer : Nat → AgentResult ReviewerOutput)
    (reviewee : Nat → AgentResult RevieweeOutput) (ctx : Context)
    (R : Nat → ReviewerOutput) (F : Nat → RevieweeOutput)
    (hR : ∀ n, reviewer n = AgentResult.ok (R n))
    (hRa : ∀ n, (R n).action ≠ ReviewAction.approve)
    (hF : ∀ n, reviewee n = AgentResult.ok (F n))
    (hFs : ∀ n, (F n).status = RevieweeStatus.completed) :
    (Orchestrator.run ⟨3, secs⟩ repo prNumber reviewer reviewee (some ctx)).2 =
        .ok (.maxIterationsReached 3) ∧
      (Orchestrator.run ⟨3, secs⟩ repo prNumber reviewer reviewee
        (some ctx)).1.countP isReviewerCallStep = 3 ∧
      (Orchestrator.run ⟨3, secs⟩ repo prNumber reviewer reviewee
        (some ctx)).1.countP isRevieweeCallStep = 3 := by
  simp [Orchestrator.run, runLoop, runReviewerWithTimeout, runRevieweeWithTimeout,
    hR, hRa, hF, hFs, isReviewerCallStep, isRevieweeCallStep, List.countP_cons,
    List.countP_append]

/-- Witness for C5 at a concrete input. -/
theorem exhaustion_three_iterations_witness :
    (Orchestrator.run ⟨3, 60⟩ "r" 1 (fun _ => .ok reqChangesReview)
        (fun _ => .ok completedFix) (some sampleContext)).2 =
        .ok (.maxIterationsReached 3) ∧
      (Orchestrator.run ⟨3, 60⟩ "r" 1 (fun _ => .ok reqChangesReview)
        (fun _ => .ok completedFix) (some sampleContext)).1.countP
          isReviewerCallStep = 3 ∧
      (Orchestrator.run ⟨3, 60⟩ "r" 1 (fun _ => .ok reqChangesReview)
        (fun _ => .ok completedFix) (some sampleContext)).1.countP
          isRevieweeCallStep = 3 :=
  exhaustion_three_iterations "r" 1 60 (fun _ => .ok reqChangesReview)
    (fun _ => .ok completedFix) sampleContext (fun _ => reqChangesReview)
    (fun _ => completedFix) (fun _ => rfl)
    (fun _ => (by decide : reqChangesReview.action ≠ ReviewAction.approve))
    (fun _ => rfl) (fun _ => rfl)

/-- C6: an agent invocation exceeding the configured timeout makes `run()`
fail with an error stating the configured bound in seconds; the timed-out
invocation is the last step of the run (it is not retried and nothing
further happens). -/
theorem timeout_fatal_not_retried (cfg : AiConfig) (repo : String) (prNumber : Nat)
    (reviewer : Nat → AgentResult ReviewerOutput)
    (reviewee : Nat → AgentResult RevieweeOutput) (ctx : Context) (k : Nat) :
    (reviewer k = .timeout →
      Step.reviewerCall k ∈
        (Orchestrator.run cfg repo prNumber reviewer reviewee (some ctx)).1 →
      (Orchestrator.run cfg repo prNumber reviewer reviewee (some ctx)).2 =
          .error ("Reviewer timeout after " ++ toString cfg.timeout_secs ++ " seconds") ∧
        ∃ t, (Orchestrator.run cfg repo prNumber reviewer reviewee (some ctx)).1 =
            t ++ [Step.reviewerCall k] ∧ Step.reviewerCall k ∉ t) ∧
    (reviewee k = .timeout →
      Step.revieweeCall k ∈
        (Orchestrator.run cfg repo prNumber reviewer reviewee (some ctx)).1 →
      (Orchestrator.run cfg repo prNumber reviewer reviewee (some ctx)).2 =
          .error ("Reviewee timeout after " ++ toString cfg.timeout_secs ++ " seconds") ∧
        ∃ t, (Orchestrator.run cfg repo prNumber reviewer reviewee (some ctx)).1 =
            t ++ [Step.revieweeCall k] ∧ Step.revieweeCall k ∉ t) := by
  constructor
  · intro ht hcall
    have hc : Step.reviewerCall k ∈
        (runLoop cfg repo prNumber reviewer reviewee 0 cfg.max_iterations).1 := by
      simpa [Orchestrator.run] using hcall
    obtain ⟨hres, hdec⟩ :=
      runLoop_reviewer_timeout cfg repo prNumber reviewer reviewee k ht
        cfg.max_iterations 0 hc
    refine ⟨by simpa [Orchestrator.run] using hres, ?_⟩
    have htr : (Orchestrator.run cfg repo prNumber reviewer reviewee (some ctx)).1 =
        Step.event (RallyEvent.stateChanged RallyState.initializing) ::
          (runLoop cfg repo prNumber reviewer reviewee 0 cfg.max_iterations).1 := rfl
    rw [htr]
    exact exists_concat_cons (by simp) hdec
  · intro ht hcall
    have hc : Step.revieweeCall k ∈
        (runLoop cfg repo prNumber reviewer reviewee 0 cfg.max_iterations).1 := by
      simpa [Orchestrator.run] using hcall
    obtain ⟨hres, hdec⟩ :=
      runLoop_reviewee_timeout cfg repo prNumber reviewer reviewee k ht
        cfg.max_iterations 0 hc
    refine ⟨by simpa [Orchestrator.run] using hres, ?_⟩
    have htr : (Orchestrator.run cfg repo prNumber reviewer reviewee (some ctx)).1 =
        Step.event (RallyEvent.stateChanged RallyState.initializing) ::
          (runLoop cfg repo prNumber reviewer reviewee 0 cfg.max_iterations).1 := rfl
    rw [htr]
    exact exists_concat_cons (by simp) hdec

/-- Witness for C6 at a concrete input: a reviewer that times out at
iteration 1 with a 60-second bound. -/
theorem timeout_fatal_not_retried_witness :
    (Orchestrator.run ⟨1, 60⟩ "r" 1 (fun _ => .timeout)
        (fun _ => .ok completedFix) (some sampleContext)).2 =
        .error "Reviewer timeout after 60 seconds" ∧
      ∃ t, (Orchestrator.run ⟨1, 60⟩ "r" 1 (fun _ => .timeout)
          (fun _ => .ok completedFix) (some sampleContext)).1 =
        t ++ [Step.reviewerCall 1] ∧ Step.reviewerCall 1 ∉ t := by
  have h := (timeout_fatal_not_retried ⟨1, 60⟩ "r" 1 (fun _ => .timeout)
    (fun _ => .ok completedFix) sampleContext 1).1 rfl (by decide)
  exact ⟨by simpa using h.1, h.2⟩

/-- C10: with `max_iterations = 0` and a context set, `run()` returns
`MaxIterationsReached{0}` immediately: the whole observable trace is the
`StateChanged(Initializing)` event followed by the max-iterations log event —
no agent invocation, no session write, no history entry. -/
theorem zero_max_iterations_immediate (repo : String) (prNumber : Nat) (secs : Nat)
    (reviewer : Nat → AgentResult ReviewerOutput)
    (reviewee : Nat → AgentResult RevieweeOutput) (ctx : Context) :
    Orchestrator.run ⟨0, secs⟩ repo prNumber reviewer reviewee (some ctx) =
      ([.event (.stateChanged .initializing),
        .event (.log "Max iterations (0) reached")],
       .ok (.maxIterationsReached 0)) := by
  have hs : "Max iterations (" ++ toString (0 : Nat) ++ ") reached" =
      "Max iterations (0) reached" := by decide
  simp [Orchestrator.run, runLoop, hs]

/-- The inline-comment loop never performs a summary submission. -/
lemma postComments_filter_submit (createComment : String → Nat → String → Except String Unit)
    (opts : PostOptions) :
    ∀ cs, (postComments createComment opts cs).filter isSubmitStep = [] := by
  intro cs
  induction cs with
  | nil => rfl
  | cons c rest ih =>
    cases hc : createComment c.path c.line (withHeader opts c.body) <;>
      simp [postComments, hc, isSubmitStep, ih]

/-- The inline-comment loop submits each comment exactly once, in the list's
original order, regardless of which submissions fail. -/
lemma postComments_filter_inline (createComment : String → Nat → String → Except String Unit)
    (opts : PostOptions) :
    ∀ cs, (postComments createComment opts cs).filter isInlineStep =
      cs.map (fun c => PostStep.createReviewComment c.path c.line (withHeader opts c.body)) := by
  intro cs
  induction cs with
  | nil => rfl
  | cons c rest ih =>
    cases hc : createComment c.path c.line (withHeader opts c.body) <;>
      simp [postComments, hc, isInlineStep, ih]

/-- C7: with summary posting enabled, a failed summary submission for the
`Approve` action is retried exactly once as `Comment` with the identical
body (the overall outcome then follows the retry); a failed submission for
any other action is propagated immediately, with no retry and no inline
comment attempted. -/
theorem approve_fallback_once
    (submit : AppReviewAction → String → Except String Unit)
    (createComment : String → Nat → String → Except String Unit)
    (review : ReviewerOutput) (opts : PostOptions)
    (hps : opts.post_summary = true) :
    (∀ e, toAppAction review.action = AppReviewAction.approve →
       submit AppReviewAction.approve (withHeader opts review.summary) = .error e →
       ((post_review_to_github submit createComment review opts).1.filter isSubmitStep =
          [PostStep.submitReview AppReviewAction.approve (withHeader opts review.summary),
           PostStep.submitReview AppReviewAction.comment (withHeader opts review.summary)] ∧
        (submit AppReviewAction.comment (withHeader opts review.summary) = .ok () →
          (post_review_to_github submit createComment review opts).2 = .ok ()) ∧
        (∀ e2, submit AppReviewAction.comment (withHeader opts review.summary) = .error e2 →
          (post_review_to_github submit createComment review opts).2 = .error e2))) ∧
    (∀ e, toAppAction review.action ≠ AppReviewAction.approve →
       submit (toAppAction review.action) (withHeader opts review.summary) = .error e →
       post_review_to_github submit createComment review opts =
         ([PostStep.submitReview (toAppAction review.action) (withHeader opts review.summary)],
          .error e)) := by
  constructor
  · intro e ha hsub
    refine ⟨?_, ?_, ?_⟩
    · cases hc2 : submit AppReviewAction.comment (withHeader opts review.summary) with
      | ok u =>
        simp [post_review_to_github, hps, ha, hsub, hc2, isSubmitStep,
          postComments_filter_submit]
      | error e2 =>
        simp [post_review_to_github, hps, ha, hsub, hc2, isSubmitStep]
    · intro hc2
      simp [post_review_to_github, hps, ha, hsub, hc2]
    · intro e2 hc2
      simp [post_review_to_github, hps, ha, hsub, hc2]
  · intro e ha hsub
    simp [post_review_to_github, hps, hsub, ha]

/-- Witness for C7 at a concrete input: an approving verdict whose summary
submission fails as `Approve` and succeeds on the `Comment` retry. -/
theorem approve_fallback_once_witness :
    ((post_review_to_github
        (fun a _ => if a = AppReviewAction.approve then .error "x" else .ok ())
        (fun _ _ _ => .ok ()) approveReview ⟨false, true⟩).1.filter isSubmitStep =
      [PostStep.submitReview AppReviewAction.approve "ok",
       PostStep.submitReview AppReviewAction.comment "ok"]) ∧
    (post_review_to_github
        (fun a _ => if a = AppReviewAction.approve then .error "x" else .ok ())
        (fun _ _ _ => .ok ()) approveReview ⟨false, true⟩).2 = .ok () := by
  have h := (approve_fallback_once
    (fun a _ => if a = AppReviewAction.approve then .error "x" else .ok ())
    (fun _ _ _ => .ok ()) approveReview ⟨false, true⟩ rfl).1 "x" rfl rfl
  exact ⟨h.1, h.2.1 rfl⟩

/-- C8: each inline comment is submitted individually in the verdict's
original order; a single comment's failure does not abort the submission of
later comments and does not make the call fail (given the summary phase did
not itself fail). -/
theorem inline_comments_order_partial_failure
    (submit : AppReviewAction → String → Except String Unit)
    (createComment : String → Nat → String → Except String Unit)
    (review : ReviewerOutput) (opts : PostOptions)
    (hs : opts.post_summary = false ∨
      submit (toAppAction review.action) (withHeader opts review.summary) = .ok ()) :
    (post_review_to_github submit createComment review opts).2 = .ok () ∧
      (post_review_to_github submit createComment review opts).1.filter isInlineStep =
        review.comments.map
          (fun c => PostStep.createReviewComment c.path c.line (withHeader opts c.body)) := by
  rcases hs with hps | hok
  · simp [post_review_to_github, hps, postComments_filter_inline]
  · by_cases hps : opts.post_summary = true
    · simp [post_review_to_github, hps, hok, isInlineStep, postComments_filter_inline]
    · simp [post_review_to_github, hps, postComments_filter_inline]

/-- Witness for C8 at a concrete input: three inline comments where the
second fails — all three are attempted in order and the call still
succeeds. -/
theorem inline_comments_order_partial_failure_witness :
    (post_review_to_github (fun _ _ => .ok ())
        (fun p _ _ => if p = "b" then Except.error "boom" else .ok ())
        ⟨.comment, "s",
          [⟨"a", 1, "x", .minor⟩, ⟨"b", 2, "y", .major⟩, ⟨"c", 3, "z", .critical⟩], []⟩
        ⟨false, false⟩).2 = .ok () ∧
      (post_review_to_github (fun _ _ => .ok ())
        (fun p _ _ => if p = "b" then Except.error "boom" else .ok ())
        ⟨.comment, "s",
          [⟨"a", 1, "x", .minor⟩, ⟨"b", 2, "y", .major⟩, ⟨"c", 3, "z", .critical⟩], []⟩
        ⟨false, false⟩).1.filter isInlineStep =
      [PostStep.createReviewComment "a" 1 "x",
       PostStep.createReviewComment "b" 2 "y",
       PostStep.createReviewComment "c" 3 "z"] := by
  have h := inline_comments_order_partial_failure (fun _ _ => .ok ())
    (fun p _ _ => if p = "b" then Except.error "boom" else .ok ())
    ⟨.comment, "s",
      [⟨"a", 1, "x", .minor⟩, ⟨"b", 2, "y", .major⟩, ⟨"c", 3, "z", .critical⟩], []⟩
    ⟨false, false⟩ (Or.inl rfl)
  exact ⟨h.1, h.2⟩

/-- C9: `read_pending_review` rejects any stored version other than the
expected `CURRENT_VERSION` with the `Unsupported pending review version`
error (returning no `PendingReview`), fails with the read-context error when
the file cannot be read, and with the parse-context error when the content
does not parse. -/
theorem pending_review_version_gate :
    (∀ (content : Except String String)
       (parse : String → Except String PendingReview) (s : String) (r : PendingReview),
       content = .ok s → parse s = .ok r → r.version ≠ CURRENT_VERSION →
       read_pending_review content parse =
           .error ("Unsupported pending review version: " ++ toString r.version ++
                   " (expected " ++ toString CURRENT_VERSION ++ ")") ∧
         ∀ r', read_pending_review content parse ≠ .ok r') ∧
    (∀ (content : Except String String)
       (parse : String → Except String PendingReview) (e : String),
       content = .error e →
       read_pending_review content parse = .error "Failed to read pending review file") ∧
    (∀ (content : Except String String)
       (parse : String → Except String PendingReview) (s e : String),
       content = .ok s → parse s = .error e →
       read_pending_review content parse = .error "Failed to parse pending review file") := by
  refine ⟨?_, ?_, ?_⟩
  · intro content parse s r hc hp hv
    subst hc
    constructor
    · simp [read_pending_review, hp, hv]
    · intro r'
      simp [read_pending_review, hp, hv]
  · intro content parse e hc
    subst hc
    rfl
  · intro content parse s e hc hp
    subst hc
    simp [read_pending_review, hp]

/-- Witness for C9 at a concrete input: a stored pending review with
`version: 2` is rejected (the implementation expects version 1). -/
theorem pending_review_version_gate_witness :
    read_pending_review (.ok "x")
        (fun _ => .ok ⟨2, "r", 1, "h", "b", "c", reqChangesReview⟩) =
      .error ("Unsupported pending review version: " ++ toString (2 : Nat) ++
              " (expected " ++ toString CURRENT_VERSION ++ ")") :=
  (pending_review_version_gate.1 (.ok "x")
    (fun _ => .ok ⟨2, "r", 1, "h", "b", "c", reqChangesReview⟩) "x"
    ⟨2, "r", 1, "h", "b", "c", reqChangesReview⟩ rfl rfl (by decide)).1
